import Mathlib

/-!
Verification of the PyRates expression-compiler backend against its
natural-language specification.

The definitions below are a shallow embedding of the relevant parts of the
repository's Python sources:

* `pyrates/backend/fortran_backend.py` — the Fortran backend: its operator
  table (`FortranBackend.__init__`), operator creation (`_create_op`),
  shape compatibility (`_compare_shapes`), the layer-preparation phase of
  `compile`, and the line-wrapping code generator (`FortranGen.add_code_line`
  with `_find_first_op`).
* `pyrates/ir/node.py` — `VectorizedNodeIR.__init__`.
* the equation/solver layer and the slice handling of the expression parser
  (`pyrates/parser.py`), which are not present in the source tree; those are
  modelled from the specification and are marked as such.

Python strings are embedded as `List Char`, Python lists as `List`,
Python dicts as association lists (`List (key × value)`, unique keys,
insertion order), numeric values as `ℚ`, and raising an exception as
returning `Except`/`Option` errors.
-/

namespace PyRates

/-! ### Operator table of the Fortran backend

`FortranBackend.__init__` (fortran_backend.py lines 102-163) builds the
dict `ops_f` mapping an operator symbol to `{'name': ..., 'call': ...}`.
It is embedded as a list of `OpSpec` entries in source order. -/

structure OpSpec where
  sym : String
  name : String
  call : String
deriving DecidableEq, Repr

/-- The `ops_f` table from `FortranBackend.__init__`, entry for entry. -/
def fortranOps : List OpSpec :=
  [⟨"+", "fortran_add", "+"⟩,
   ⟨"-", "fortran_subtract", "-"⟩,
   ⟨"*", "fortran_multiply", "*"⟩,
   ⟨"/", "fortran_divide", "/"⟩,
   ⟨"%", "fortran_modulo", "MODULO"⟩,
   ⟨"^", "fortran_power", "**"⟩,
   ⟨"**", "fortran_power_float", "**"⟩,
   ⟨"@", "fortrandot", ""⟩,
   ⟨".T", "fortrantranspose", ""⟩,
   ⟨".I", "fortraninvert", ""⟩,
   ⟨">", "fortrangreater", ">"⟩,
   ⟨"<", "fortranless", "<"⟩,
   ⟨"==", "fortranequal", "=="⟩,
   ⟨"!=", "fortran_not_equal", "!="⟩,
   ⟨">=", "fortran_greater_equal", ">="⟩,
   ⟨"<=", "fortran_less_equal", "<="⟩,
   ⟨"=", "assign", "="⟩,
   ⟨"+=", "assign_add", ""⟩,
   ⟨"-=", "assign_subtract", ""⟩,
   ⟨"*=", "assign_multiply", ""⟩,
   ⟨"/=", "assign_divide", ""⟩,
   ⟨"neg", "negative", "-"⟩,
   ⟨"sin", "fortran_sin", "SIN"⟩,
   ⟨"cos", "fortran_cos", "COS"⟩,
   ⟨"tan", "fortran_tan", "TAN"⟩,
   ⟨"atan", "fortran_atan", "ATAN"⟩,
   ⟨"abs", "fortran_abs", "ABS"⟩,
   ⟨"sqrt", "fortran_sqrt", "SQRT"⟩,
   ⟨"sq", "fortran_square", ""⟩,
   ⟨"exp", "fortran_exp", "EXP"⟩,
   ⟨"max", "fortran_max", "MAX"⟩,
   ⟨"min", "fortran_min", "MIN"⟩,
   ⟨"argmax", "fortran_transpose", "ARGMAX"⟩,
   ⟨"argmin", "fortran_argmin", "ARGMIN"⟩,
   ⟨"round", "fortran_round", ""⟩,
   ⟨"sum", "fortran_sum", ""⟩,
   ⟨"mean", "fortran_mean", ""⟩,
   ⟨"concat", "fortran_concatenate", ""⟩,
   ⟨"reshape", "fortran_reshape", ""⟩,
   ⟨"append", "fortran_append", ""⟩,
   ⟨"shape", "fortran_shape", ""⟩,
   ⟨"dtype", "fortran_dtype", ""⟩,
   ⟨"squeeze", "fortran_squeeze", ""⟩,
   ⟨"expand", "fortran_expand", ""⟩,
   ⟨"roll", "fortran_roll", ""⟩,
   ⟨"cast", "fortran_cast", ""⟩,
   ⟨"randn", "fortran_randn", ""⟩,
   ⟨"ones", "fortran_ones", ""⟩,
   ⟨"zeros", "fortran_zeros", ""⟩,
   ⟨"range", "fortran_arange", ""⟩,
   ⟨"softmax", "pyrates_softmax", ""⟩,
   ⟨"sigmoid", "pyrates_sigmoid", ""⟩,
   ⟨"tanh", "fortran_tanh", "TANH"⟩,
   ⟨"index", "pyrates_index", "pyrates_index"⟩,
   ⟨"mask", "pyrates_mask", ""⟩,
   ⟨"group", "pyrates_group", ""⟩,
   ⟨"asarray", "fortran_asarray", ""⟩,
   ⟨"no_op", "pyrates_identity", ""⟩,
   ⟨"interpolate", "pyrates_interpolate", ""⟩,
   ⟨"interpolate_1d", "pyrates_interpolate_1d", ""⟩,
   ⟨"interpolate_nd", "pyrates_interpolate_nd", ""⟩]

/-- Dict lookup `self.ops[op]`: first entry whose key matches (keys are
unique in a Python dict). -/
def lookupOp (ops : List OpSpec) (op : String) : Option OpSpec :=
  ops.find? (fun e => e.sym = op)

/-- The arithmetic and comparison operator symbols of the expression
language (the symbols the spec's §4.1 grammar assigns to the additive,
multiplicative, power and comparison precedence levels). -/
def arithCompSyms : List String :=
  ["+", "-", "*", "/", "%", "^", "**", ">", "<", "==", "!=", ">=", "<="]

/-! ### `FortranBackend._create_op` (fortran_backend.py lines 572-601)

The method first checks `if not self.ops[op]['call']` and raises
`NotImplementedError`; only past that guard does it construct an operation
node (`FortranAssignOp` for the in-place assignment symbols,
`FortranIndexOp` for `"index"`, `FortranOp` otherwise).  The embedding
keeps the guard and the branch structure; the node constructors themselves
(defined in the absent numpy backend module) are represented by the record
of which constructor runs and with which call/name strings, since the
claim concerns only whether `NotImplementedError` is raised. -/

/-- Decidable equality on `Except`, for evaluating the embedded fallible
operations on concrete inputs. -/
instance {ε α : Type} [DecidableEq ε] [DecidableEq α] :
    DecidableEq (Except ε α)
  | .ok x, .ok y => decidable_of_iff (x = y) (by simp)
  | .error x, .error y => decidable_of_iff (x = y) (by simp)
  | .ok _, .error _ => isFalse (fun h => Except.noConfusion h)
  | .error _, .ok _ => isFalse (fun h => Except.noConfusion h)

inductive BackendErr where
  /-- `raise NotImplementedError(...)`; carries the offending operator
  symbol (the source interpolates it into the message). -/
  | notImplementedError (op : String)
  /-- `self.ops[op]` on a missing key raises `KeyError` in Python. -/
  | keyError (op : String)
deriving DecidableEq, Repr

inductive FNode where
  | assignOp (call name : String)
  | indexOp (call name : String)
  | baseOp (call name : String)
deriving DecidableEq, Repr

/-- The symbols routed to `FortranAssignOp`:
`op in ["=", "+=", "-=", "*=", "/="]`. -/
def assignSyms : List String := ["=", "+=", "-=", "*=", "/="]

/-- `FortranBackend._create_op`.  `name` is the node name passed through to
the constructed operation. -/
def create_op (ops : List OpSpec) (op : String) (name : String) :
    Except BackendErr FNode :=
  match lookupOp ops op with
  | none => .error (.keyError op)
  | some spec =>
    if spec.call = "" then .error (.notImplementedError op)
    else if op ∈ assignSyms then .ok (.assignOp spec.call name)
    else if op = "index" then .ok (.indexOp spec.call name)
    else .ok (.baseOp spec.call name)

/-! ### `FortranBackend._compare_shapes` (fortran_backend.py lines 603-636)

An operand either carries a `shape` attribute (a tuple of non-negative
extents, embedded `List ℕ`) or it does not (`none`). -/

structure BOperand where
  shape : Option (List ℕ)
deriving DecidableEq, Repr

/-- `FortranBackend._compare_shapes`, branch for branch:
both shaped → equal, or both rank > 1, or both rank 0;
only `op1` shaped → compatible iff `sum(op1.shape)` is 0;
`op1` unshaped → compatible. -/
def compare_shapes (op1 op2 : BOperand) : Bool :=
  match op1.shape, op2.shape with
  | some s1, some s2 =>
    if s1 = s2 then true
    else if 1 < s1.length ∧ 1 < s2.length then true
    else if s1.length = 0 ∧ s2.length = 0 then true
    else false
  | some s1, none => if 0 < s1.sum then false else true
  | none, _ => true

/-! ### The layer-preparation phase of `FortranBackend.compile`
(fortran_backend.py lines 196-205)

```
new_layer_idx = 0
for layer_idx, layer in enumerate(self.layers.copy()):
    for op in layer.copy():
        if op is None:
            layer.pop(layer.index(op))
    if len(layer) == 0:
        self.layers.pop(new_layer_idx)
    else:
        new_layer_idx += 1
```

A layer is a Python list whose entries are operations or `None`, embedded
as `List (Option α)`.  `layer.pop(layer.index(None))` removes the first
`None` of the live list. -/

/-- `layer.pop(layer.index(None))`: drop the first `none`.  (The source
only reaches this when a `none` is present; on a `none`-free list the
embedding is the identity, a case the initial call never produces.) -/
def popFirstNone {α : Type} : List (Option α) → List (Option α)
  | [] => []
  | none :: rest => rest
  | some a :: rest => some a :: popFirstNone rest

/-- The inner loop: iterate over the snapshot `layer.copy()` (first
argument) and, at each `None` encountered, pop the first `None` of the
live list (second argument). -/
def innerCleanLoop {α : Type} :
    List (Option α) → List (Option α) → List (Option α)
  | [], layer => layer
  | some _ :: rest, layer => innerCleanLoop rest layer
  | none :: rest, layer => innerCleanLoop rest (popFirstNone layer)

/-- One layer after the inner loop: the loop starts with the snapshot
equal to the live list. -/
def cleanLayer {α : Type} (layer : List (Option α)) : List (Option α) :=
  innerCleanLoop layer layer

/-- The outer loop.  Python iterates over the snapshot
`self.layers.copy()` while popping from the live `self.layers` at position
`new_layer_idx`; because `new_layer_idx` counts exactly the layers kept so
far, the live list at that moment is `kept ++ [current layer] ++ rest`,
so `pop(new_layer_idx)` removes precisely the current (emptied) layer.
The net effect is the recursion below: clean each layer in order, keep it
iff it is non-empty afterwards. -/
def prepareLayers {α : Type} : List (List (Option α)) → List (List (Option α))
  | [] => []
  | layer :: rest =>
    let c := cleanLayer layer
    if c.isEmpty then prepareLayers rest else c :: prepareLayers rest

/-! ### `FortranGen` (fortran_backend.py lines 639-665)

`CodeGen` (the base class, defined in the numpy backend module, which is
not part of the source tree) holds `self.code`, a Python list of string
segments, and `self.lvl`, the indentation level.  Generated text is the
concatenation of the segments. -/

/-- A Python string as a list of characters. -/
abbrev Chars := List Char

structure FGen where
  code : List Chars
  lvl : ℕ
deriving DecidableEq, Repr

/-- The segment `add_linebreak` appends. -/
def newlineSeg : Chars := ['\n']

/-- Modelled from the spec: the base code generator (`CodeGen`, defined in
the numpy backend module absent from the sources) accumulates code in the
list `self.code`; `add_linebreak` appends the segment `"\n"`.  This is the
behaviour `fortran_backend.py` itself relies on when it tests
`self.code[-1] == '\n'` and pops trailing segments. -/
def add_linebreak (g : FGen) : FGen :=
  { g with code := g.code ++ [newlineSeg] }

/-- Python `sub in s` / `s.index(sub)`: index of the first occurrence of
`pat` as a contiguous substring of `s`, if any. -/
def pyIndexOf (pat : Chars) : Chars → Option ℕ
  | [] => if pat.isPrefixOf ([] : Chars) then some 0 else none
  | c :: rest =>
    if pat.isPrefixOf (c :: rest) then some 0
    else (pyIndexOf pat rest).map (· + 1)

/-- Python `max` over a non-empty list of indices. -/
def pyMax : List ℕ → Option ℕ
  | [] => none
  | x :: rest =>
    match pyMax rest with
    | none => some x
    | some m => some (Nat.max x m)

/-- Python `s[a:b]` for `0 ≤ a ≤ b` (out-of-range bounds clamp). -/
def pySlice (s : Chars) (a b : Nat) : Chars :=
  (s.drop a).take (b - a)

/-- `len(code_tmp) - 1 - code_tmp[::-1].index(' ')`: the index of the last
space; Python raises `ValueError` (here `none`) when there is no space. -/
def lastSpaceIdx (s : Chars) : Option ℕ :=
  (pyIndexOf [' '] s.reverse).map (fun j => s.length - 1 - j)

/-- The operator list of `FortranGen._find_first_op`. -/
def wrapOps : List Chars :=
  ["+".data, "-".data, "*".data, "/".data, "**".data, "^".data, "%".data,
   "<".data, ">".data, "==".data, "!=".data, "<=".data, ">=".data]

/-- `FortranGen._find_first_op(code, start, stop)`:
when `stop < len(code)`, look at `code[start:stop]`; return the largest
first-occurrence index of any operator if that maximum is positive, else
the index of the last space (an exception — `none` — if there is none);
when `stop ≥ len(code)`, return `stop` itself. -/
def find_first_op (code : Chars) (start stop : ℕ) : Option ℕ :=
  if stop < code.length then
    let tmp := pySlice code start stop
    let idxs := wrapOps.filterMap (fun op => pyIndexOf op tmp)
    match pyMax idxs with
    | some m => if 0 < m then some m else lastSpaceIdx tmp
    | none => lastSpaceIdx tmp
  else some stop

/-- The continuation marker `"     " "& "` (five spaces, ampersand,
space) that `add_code_line` puts in front of continuation segments. -/
def contMarker : Chars := "     & ".data

/-- The `while idx < n` loop of `add_code_line` (`n = 60`).  Each
iteration appends a linebreak and the continuation segment
`"     & " + code_line[idx:idx+idx_new]`, then advances `idx` by
`idx_new`.  A `_find_first_op` exception propagates as `none`; a zero
`idx_new` makes the Python loop run forever (also `none`).  The fuel is
an upper bound on the iteration count: `idx` grows by at least 1 per
iteration while below 60. -/
def wrapLoop (line : Chars) : ℕ → ℕ → FGen → Option FGen
  | 0, _, _ => none
  | fuel + 1, idx, g =>
    if idx < 60 then
      match find_first_op line idx (idx + 60) with
      | none => none
      | some idxNew =>
        let g' := add_linebreak g
        let g'' := { g' with
          code := g'.code ++ [contMarker ++ pySlice line idx (idx + idxNew)] }
        if idxNew = 0 then none
        else wrapLoop line fuel (idx + idxNew) g''
    else some g

/-- The line `add_code_line` actually processes: the input, prefixed with
`"\t" * self.lvl` when the previous segment is a linebreak
(`self.code and self.code[-1] == '\n'`). -/
def effLine (g : FGen) (codeStr : Chars) : Chars :=
  if g.code.getLast? = some newlineSeg
  then List.replicate g.lvl '\t' ++ codeStr
  else codeStr

/-- `FortranGen.add_code_line`: lines of at most 60 characters are
appended as they are; longer lines are split at `_find_first_op`
positions, each later piece prefixed with the continuation marker. -/
def add_code_line (g : FGen) (codeStr : Chars) : Option FGen :=
  let line := effLine g codeStr
  if 60 < line.length then
    match find_first_op line 0 60 with
    | none => none
    | some idx =>
      wrapLoop line 61 idx { g with code := g.code ++ [pySlice line 0 idx] }
  else some { g with code := g.code ++ [line] }

/-- The reading of the generated segments that claim C4 asserts: drop the
linebreak segments, strip the continuation marker from continuation
segments, and concatenate; the claim says this recovers the input line. -/
def segText (code : List Chars) : Chars :=
  ((code.filter (fun s => s ≠ newlineSeg)).map
    (fun s => if contMarker.isPrefixOf s then s.drop 7 else s)).flatten

/-- The concrete input used to refute claim C4: 30 `a`s, `+`, 54 `b`s,
`*`, 114 `c`s — 200 characters. -/
def exC4 : Chars :=
  List.replicate 30 'a' ++ ['+'] ++ List.replicate 54 'b' ++ ['*'] ++
    List.replicate 114 'c'

/-! ### `VectorizedNodeIR.__init__` (pyrates/ir/node.py lines 77-88)

`node_ir.values` is a dict mapping an operator key to a dict mapping a
variable key to a value; both dicts are embedded as association lists with
unique keys in insertion order.  The constructor builds a fresh dict in
which every value is wrapped in a one-element list:

```
values = {}
for op_key, value_dict in node_ir.values.items():
    op_values = {}
    for var_key, value in value_dict.items():
        op_values[var_key] = [value]
    values[op_key] = copy(op_values)
self.values = values
```
-/

/-- The inner loop over `value_dict.items()`: each value becomes the
one-element list of itself (the shallow `copy` of the freshly built
`op_values` dict is the identity on the embedding). -/
def wrapVarValues {V : Type} : List (String × V) → List (String × List V)
  | [] => []
  | (k, v) :: rest => (k, [v]) :: wrapVarValues rest

/-- The outer loop over `node_ir.values.items()`. -/
def vectorizeValues {V : Type} :
    List (String × List (String × V)) → List (String × List (String × List V))
  | [] => []
  | (opk, d) :: rest => (opk, wrapVarValues d) :: vectorizeValues rest

/-- Python dict lookup on the association-list embedding. -/
def lookupA {V : Type} : List (String × V) → String → Option V
  | [], _ => none
  | (k, v) :: rest, key => if k = key then some v else lookupA rest key

/-! ### Equation/solver layer, modelled from the spec

The parser/solver module (`pyrates/parser.py`) is not part of the source
tree — only its test suite (`tests/core/test_parser.py`) is.  The
definitions of this section are therefore modelled from the
specification's §4.1 (expression grammar), §4.6 (equation splitting,
differential pattern, per-step update rules) and §8 (concrete scenarios),
with numeric values embedded as `ℚ`. -/

inductive EqMode where
  | assign
  | differential
deriving DecidableEq, Repr

/-- Modelled from the spec (§4.6): an `Equation` pairs the target
identifier with the mode flag and the right-hand-side text
(`pyrates.parser.EquationParser` is missing from the source tree). -/
structure Equation where
  target : Chars
  mode : EqMode
  rhsText : Chars
deriving DecidableEq, Repr

/-- Modelled from the spec (§4.6): the per-step update rule —
`assign` mode replaces the target with `evaluate(rhs)`, `differential`
mode performs the explicit forward-Euler step
`target := target + evaluate(rhs) * dt`. -/
def evalStep : EqMode → ℚ → ℚ → ℚ → ℚ
  | .assign, _, rhsVal, _ => rhsVal
  | .differential, target, rhsVal, dt => target + rhsVal * dt

/-- Tokens of the modelled numeric expression sublanguage. -/
inductive Tok where
  | num (q : ℚ)
  | plus
  | minus
  | times
  | div
deriving DecidableEq, Repr

/-- Leading run of decimal digits of a string, and the rest. -/
def readDigits : Chars → Chars × Chars
  | [] => ([], [])
  | c :: rest =>
    if c.isDigit then
      let (ds, r) := readDigits rest
      (c :: ds, r)
    else ([], c :: rest)

/-- Numeric value of a digit string. -/
def digitsToNat (ds : Chars) : ℕ :=
  ds.foldl (fun a c => a * 10 + (c.toNat - 48)) 0

/-- Value of a decimal literal `ds.fs` (either digit part may be empty,
as in `"5."`). -/
def ratOfDigits (ds fs : Chars) : ℚ :=
  (digitsToNat ds : ℚ) + (digitsToNat fs : ℚ) / ((10 : ℚ) ^ fs.length)

/-- Modelled from the spec (§4.1, §6): tokenizer for the numeric fragment
of the expression language — decimal literals and the `+ - * /`
operators, blanks skipped; anything else is a syntax failure.  The fuel
only bounds recursion (each step consumes at least one character). -/
def tokenizeF : ℕ → Chars → Option (List Tok)
  | 0, _ => none
  | _, [] => some []
  | fuel + 1, c :: rest =>
    if c = ' ' then tokenizeF fuel rest
    else if c = '+' then (tokenizeF fuel rest).map (Tok.plus :: ·)
    else if c = '-' then (tokenizeF fuel rest).map (Tok.minus :: ·)
    else if c = '*' then (tokenizeF fuel rest).map (Tok.times :: ·)
    else if c = '/' then (tokenizeF fuel rest).map (Tok.div :: ·)
    else if c.isDigit then
      match readDigits (c :: rest) with
      | (ds, '.' :: r2) =>
        let (fs, r3) := readDigits r2
        (tokenizeF fuel r3).map (Tok.num (ratOfDigits ds fs) :: ·)
      | (ds, r1) => (tokenizeF fuel r1).map (Tok.num (digitsToNat ds : ℚ) :: ·)
    else none

/-- Evaluate a token chain left to right with `* /` binding tighter than
`+ -`: `acc` is the sum of finished additive terms, `cur` the
multiplicative term in progress. -/
def evalChain : ℚ → ℚ → List Tok → Option ℚ
  | acc, cur, [] => some (acc + cur)
  | acc, cur, .plus :: .num n :: rest => evalChain (acc + cur) n rest
  | acc, cur, .minus :: .num n :: rest => evalChain (acc + cur) (-n) rest
  | acc, cur, .times :: .num n :: rest => evalChain acc (cur * n) rest
  | acc, cur, .div :: .num n :: rest => evalChain acc (cur / n) rest
  | _, _, _ => none

/-- Modelled from the spec (§4.1, §8): `evaluate` on a variable-free
numeric expression. -/
def evalExpr (s : Chars) : Option ℚ :=
  match tokenizeF (s.length + 1) s with
  | some (Tok.num n :: rest) => evalChain 0 n rest
  | _ => none

/-- Split an equation string at its first `=` (the spec's top-level
split; the modelled sublanguage has no `=` inside either side). -/
def splitAtEq : Chars → Option (Chars × Chars)
  | [] => none
  | c :: rest =>
    if c = '=' then some ([], rest)
    else (splitAtEq rest).map (fun p => (c :: p.1, p.2))

/-- The differential marker `d/dt*` (spec §4.6: left side matches
`d/dt * <identifier>`), compared after removing blanks. -/
def ddtMarker : Chars := "d/dt*".data

/-- Modelled from the spec (§4.6): `compile_equation` splits on `=`;
a left side matching the differential pattern selects `differential`
mode with the identifier after the marker as target, otherwise `assign`
mode (`pyrates.parser.EquationParser` is missing from the source tree). -/
def compileEquation (text : Chars) : Option Equation :=
  match splitAtEq text with
  | none => none
  | some (l, r) =>
    let ls := l.filter (fun c => c ≠ ' ')
    if ddtMarker.isPrefixOf ls then some ⟨ls.drop 5, .differential, r⟩
    else some ⟨ls, .assign, r⟩

/-- One evaluation step of a compiled equation on the current value of
its target variable: compile, evaluate the right-hand side, apply the
per-step update rule. -/
def runEquationStep (text : Chars) (target dt : ℚ) : Option ℚ :=
  (compileEquation text).bind fun eq =>
    (evalExpr eq.rhsText).map fun r => evalStep eq.mode target r dt

/-! ### Slice-argument arity, modelled from the spec

The indexing grammar (spec §4.1: `start:stop:step` slices, "exactly one
colon count = 1 or 2; more than 2 colons is a `SyntaxError`") lives in the
expression parser, which is missing from the source tree. -/

inductive SliceErr where
  | syntaxError
deriving DecidableEq, Repr

/-- A parsed slice argument; the parts are kept as raw text, since each
is recursively parsed as its own sub-expression. -/
inductive SliceSpec where
  | single (x : Chars)
  | startStop (a b : Chars)
  | startStopStep (a b c : Chars)
deriving DecidableEq, Repr

/-- Split on `:` (an `n`-colon string yields `n + 1` parts). -/
def splitOnColon : Chars → List Chars
  | [] => [[]]
  | c :: rest =>
    match splitOnColon rest with
    | [] => [[]]
    | h :: t => if c = ':' then [] :: h :: t else (c :: h) :: t

/-- Modelled from the spec (§4.1): a bracketed index argument splits on
its colons into at most three parts — a single index, `start:stop`, or
`start:stop:step`; any further colon is a `SyntaxError`. -/
def parseSliceArg (s : Chars) : Except SliceErr SliceSpec :=
  match splitOnColon s with
  | [x] => .ok (.single x)
  | [a, b] => .ok (.startStop a b)
  | [a, b, c] => .ok (.startStopStep a b c)
  | _ => .error .syntaxError

/-! ## Helper lemmas -/

theorem take_append_self {α : Type} (l1 l2 : List α) :
    (l1 ++ l2).take l1.length = l1 := by
  induction l1 with
  | nil => simp
  | cons a t ih => simp [ih]

theorem drop_append_succ {α : Type} (l1 : List α) (x : α) (l2 : List α) :
    (l1 ++ x :: l2).drop (l1.length + 1) = l2 := by
  induction l1 with
  | nil => simp
  | cons a t ih =>
    simp only [List.cons_append, List.length_cons, List.drop_succ_cons]
    exact ih

theorem isPrefixOf_append_self (l1 l2 : Chars) :
    l1.isPrefixOf (l1 ++ l2) = true := by
  induction l1 with
  | nil => simp [List.isPrefixOf]
  | cons a t ih => simp [List.isPrefixOf, ih]

theorem innerCleanLoop_eq_iterate {α : Type} :
    ∀ c l : List (Option α),
      innerCleanLoop c l = popFirstNone^[c.countP (fun x => x.isNone)] l := by
  intro c
  induction c with
  | nil => intro l; rfl
  | cons o rest ih =>
    intro l
    cases o with
    | some a => simpa [innerCleanLoop, List.countP_cons] using ih l
    | none =>
      have hc : (none :: rest : List (Option α)).countP (fun x => x.isNone) =
          rest.countP (fun x => x.isNone) + 1 := by
        simp [List.countP_cons]
      rw [innerCleanLoop, ih (popFirstNone l), hc,
        Function.iterate_succ_apply]

theorem iterate_pop_cons_some {α : Type} (a : α) :
    ∀ (k : ℕ) (l : List (Option α)),
      popFirstNone^[k] (some a :: l) = some a :: popFirstNone^[k] l := by
  intro k
  induction k with
  | zero => intro l; rfl
  | succ k ih =>
    intro l
    rw [Function.iterate_succ_apply, Function.iterate_succ_apply]
    exact ih (popFirstNone l)

theorem iterate_pop_countNone {α : Type} :
    ∀ l : List (Option α),
      popFirstNone^[l.countP (fun x => x.isNone)] l =
        l.filter (fun x => x.isSome) := by
  intro l
  induction l with
  | nil => rfl
  | cons o rest ih =>
    cases o with
    | some a =>
      simp only [List.countP_cons, Option.isNone_some, List.filter_cons]
      simpa [iterate_pop_cons_some] using ih
    | none =>
      have hc : (none :: rest : List (Option α)).countP (fun x => x.isNone) =
          rest.countP (fun x => x.isNone) + 1 := by
        simp [List.countP_cons]
      rw [hc, Function.iterate_succ_apply]
      simpa [popFirstNone, List.filter_cons] using ih

theorem cleanLayer_eq_filter {α : Type} (l : List (Option α)) :
    cleanLayer l = l.filter (fun x => x.isSome) := by
  rw [cleanLayer, innerCleanLoop_eq_iterate, iterate_pop_countNone]

theorem prepareLayers_eq {α : Type} :
    ∀ L : List (List (Option α)),
      prepareLayers L =
        (L.map (fun l => l.filter (fun x => x.isSome))).filter
          (fun l => !l.isEmpty) := by
  intro L
  induction L with
  | nil => rfl
  | cons l rest ih =>
    simp only [prepareLayers, cleanLayer_eq_filter, List.map_cons,
      List.filter_cons]
    cases h : (l.filter (fun x => x.isSome)).isEmpty with
    | true => simp [h, ih]
    | false => simp [h, ih]

theorem flatten_filter_nonempty {α : Type} :
    ∀ M : List (List α),
      (M.filter (fun l => !l.isEmpty)).flatten = M.flatten := by
  intro M
  induction M with
  | nil => rfl
  | cons l rest ih =>
    by_cases h : l.isEmpty
    · have : l = [] := List.isEmpty_iff.mp h
      simp [List.filter_cons, h, ih, this]
    · simp [List.filter_cons, h, ih]

theorem flatten_map_filter {α : Type} (p : α → Bool) :
    ∀ L : List (List α),
      (L.map (fun l => l.filter p)).flatten = L.flatten.filter p := by
  intro L
  induction L with
  | nil => rfl
  | cons l rest ih =>
    rw [List.map_cons, List.flatten_cons, List.flatten_cons,
      List.filter_append, ih]

theorem wrapVarValues_fst {V : Type} :
    ∀ d : List (String × V),
      (wrapVarValues d).map Prod.fst = d.map Prod.fst := by
  intro d
  induction d with
  | nil => rfl
  | cons kv rest ih => simp [wrapVarValues, ih]

theorem wrapVarValues_lookup {V : Type} (k : String) :
    ∀ d : List (String × V),
      lookupA (wrapVarValues d) k = (lookupA d k).map (fun v => [v]) := by
  intro d
  induction d with
  | nil => rfl
  | cons kv rest ih =>
    by_cases h : kv.1 = k
    · simp [wrapVarValues, lookupA, h]
    · simp [wrapVarValues, lookupA, h, ih]

theorem vectorizeValues_fst {V : Type} :
    ∀ vs : List (String × List (String × V)),
      (vectorizeValues vs).map Prod.fst = vs.map Prod.fst := by
  intro vs
  induction vs with
  | nil => rfl
  | cons kv rest ih => simp [vectorizeValues, ih]

theorem vectorizeValues_lookup {V : Type} (k : String) :
    ∀ vs : List (String × List (String × V)),
      lookupA (vectorizeValues vs) k =
        (lookupA vs k).map wrapVarValues := by
  intro vs
  induction vs with
  | nil => rfl
  | cons kv rest ih =>
    by_cases h : kv.1 = k
    · simp [vectorizeValues, lookupA, h]
    · simp [vectorizeValues, lookupA, h, ih]

theorem splitOnColon_length :
    ∀ s : Chars, (splitOnColon s).length = s.countP (fun c => c == ':') + 1 := by
  intro s
  induction s with
  | nil => rfl
  | cons c rest ih =>
    simp only [splitOnColon]
    cases h : splitOnColon rest with
    | nil => rw [h] at ih; simp at ih
    | cons hd tl =>
      rw [h] at ih
      simp only [List.length_cons] at ih
      by_cases hc : c = ':'
      · simp [hc, List.countP_cons]; omega
      · have : (c == ':') = false := by simp [hc]
        simp [hc, List.countP_cons, this]; omega

theorem wrapLoop_ext :
    ∀ (fuel : ℕ) (line : Chars) (idx : ℕ) (g g' : FGen),
      wrapLoop line fuel idx g = some g' →
      ∃ ext, g'.code = g.code ++ ext ∧
        ∀ seg ∈ ext, seg = newlineSeg ∨ contMarker.isPrefixOf seg = true := by
  intro fuel
  induction fuel with
  | zero => intro line idx g g' h; exact absurd h (by simp [wrapLoop])
  | succ fuel ih =>
    intro line idx g g' h
    rw [wrapLoop] at h
    by_cases hidx : idx < 60
    · rw [if_pos hidx] at h
      cases hf : find_first_op line idx (idx + 60) with
      | none => rw [hf] at h; exact absurd h (by simp)
      | some idxNew =>
        rw [hf] at h
        simp only at h
        by_cases hz : idxNew = 0
        · rw [if_pos hz] at h; exact absurd h (by simp)
        · rw [if_neg hz] at h
          obtain ⟨ext2, hcode, hprop⟩ := ih line (idx + idxNew) _ g' h
          refine ⟨newlineSeg :: (contMarker ++ pySlice line idx (idx + idxNew))
            :: ext2, ?_, ?_⟩
          · rw [hcode]
            simp [add_linebreak]
          · intro seg hseg
            simp only [List.mem_cons] at hseg
            rcases hseg with h1 | h1 | h1
            · exact Or.inl h1
            · exact Or.inr (by rw [h1]; exact isPrefixOf_append_self _ _)
            · exact hprop seg h1
    · rw [if_neg hidx] at h
      obtain rfl : g = g' := by simpa using h
      exact ⟨[], by simp, by simp⟩

/-! ## Claim theorems -/

/-- Claim C1: when both operands carry a shape attribute,
`FortranBackend._compare_shapes` reports them compatible exactly when the
two shapes are identical, or both have rank greater than 1 (regardless of
the actual extents), or both have rank 0; in every other both-shaped case
it reports them incompatible (which the graph builder surfaces as a
`ShapeMismatchError`). -/
theorem compare_shapes_both_shaped_iff (s1 s2 : List ℕ) :
    compare_shapes ⟨some s1⟩ ⟨some s2⟩ = true ↔
      s1 = s2 ∨ (1 < s1.length ∧ 1 < s2.length) ∨
        (s1.length = 0 ∧ s2.length = 0) := by
  simp only [compare_shapes]
  split_ifs with h1 h2 h3 <;> simp_all

/-- Claim C9: when only the first operand carries a shape attribute,
`FortranBackend._compare_shapes` reports compatibility exactly when the
sum of the first operand's extents is 0 — so shape `(1,)` is incompatible
with a shapeless scalar — and when the first operand carries no shape
attribute it reports compatibility unconditionally. -/
theorem compare_shapes_one_shaped :
    (∀ s1 : List ℕ,
      compare_shapes ⟨some s1⟩ ⟨none⟩ = true ↔ s1.sum = 0) ∧
    compare_shapes ⟨some [1]⟩ ⟨none⟩ = false ∧
    (∀ shp : Option (List ℕ), compare_shapes ⟨none⟩ ⟨shp⟩ = true) := by
  refine ⟨fun s1 => ?_, by decide, fun shp => rfl⟩
  simp only [compare_shapes]
  split_ifs with h <;> simp <;> omega

/-- Claim C2: `FortranBackend._create_op` raises `NotImplementedError` for
an operator registered with an empty native call spelling — the guard
runs before any operation node is constructed — and for an operator with
a non-empty spelling it never raises `NotImplementedError`. -/
theorem create_op_not_implemented_iff :
    ∀ e ∈ fortranOps,
      (create_op fortranOps e.sym "op_node" =
        Except.error (BackendErr.notImplementedError e.sym)) ↔
        e.call = "" := by
  decide

/-- Witness for C2 at the matrix-product operator `@`, registered with an
empty call spelling. -/
theorem create_op_not_implemented_witness :
    (create_op fortranOps "@" "op_node" =
      Except.error (BackendErr.notImplementedError "@")) ↔
      ("" : String) = "" :=
  create_op_not_implemented_iff ⟨"@", "fortrandot", ""⟩ (by decide)

/-- Claim C8: in the Fortran backend's operator table, `%` maps to the
native spelling `MODULO` and both power symbols `^` and `**` map to `**`;
every arithmetic and comparison operator symbol occurs exactly once in
the table, with a non-empty native spelling. -/
theorem fortran_op_table_spellings :
    ((lookupOp fortranOps "%").map OpSpec.call = some "MODULO") ∧
    ((lookupOp fortranOps "^").map OpSpec.call = some "**") ∧
    ((lookupOp fortranOps "**").map OpSpec.call = some "**") ∧
    (arithCompSyms.all (fun s =>
      ((fortranOps.countP (fun e => e.sym == s)) == 1) &&
        (lookupOp fortranOps s).any (fun e => !(e.call == ""))) = true) := by
  refine ⟨by decide, by decide, by decide, by decide⟩

/-- Claim C5: the preparation phase of `FortranBackend.compile` leaves
only non-empty layers with no `None` entries; the surviving operations
are exactly the non-`None` operations of the original layers, and both
the layers and the operations keep their original relative order (the
result is precisely the `None`-filtered layers with emptied layers
removed, in order). -/
theorem prepare_layers_clean {α : Type} (L : List (List (Option α))) :
    ((prepareLayers L).all
      (fun layer => !layer.isEmpty && layer.all (fun o => o.isSome)) = true) ∧
    (prepareLayers L).flatten = L.flatten.filter (fun o => o.isSome) ∧
    prepareLayers L =
      (L.map (fun l => l.filter (fun o => o.isSome))).filter
        (fun l => !l.isEmpty) := by
  have hchar := prepareLayers_eq L
  refine ⟨?_, ?_, hchar⟩
  · rw [hchar]
    simp only [List.all_eq_true]
    intro layer hlayer
    have hmem := List.mem_filter.mp hlayer
    obtain ⟨l0, _, rfl⟩ := List.mem_map.mp hmem.1
    refine (Bool.and_eq_true _ _).mpr ⟨hmem.2, ?_⟩
    simp only [List.all_eq_true]
    intro o ho
    exact (List.mem_filter.mp ho).2
  · rw [hchar, flatten_filter_nonempty, flatten_map_filter]

/-- Claim C10: constructing a `VectorizedNodeIR` from a `NodeIR` wraps
every variable value in a one-element list: the operator keys and, per
operator, the variable keys are unchanged, and the entry of every
operator/variable key pair becomes the one-element list of the original
value.  (The embedding is a pure function of the source mapping, which
mirrors the constructor building a fresh dict: the source node's own
`values` mapping is untouched.) -/
theorem vectorized_node_values {V : Type}
    (vs : List (String × List (String × V))) (opk vark : String) :
    ((vectorizeValues vs).map Prod.fst = vs.map Prod.fst) ∧
    (lookupA (vectorizeValues vs) opk = (lookupA vs opk).map wrapVarValues) ∧
    (∀ d : List (String × V),
      (wrapVarValues d).map Prod.fst = d.map Prod.fst) ∧
    (∀ d : List (String × V),
      lookupA (wrapVarValues d) vark = (lookupA d vark).map (fun v => [v])) :=
  ⟨vectorizeValues_fst vs, vectorizeValues_lookup opk vs,
    fun d => wrapVarValues_fst d, fun d => wrapVarValues_lookup vark d⟩

/-- Claim C3: a differential-mode equation updates its target by the
explicit forward-Euler step `target + evaluate(rhs) * dt`; in particular
one step of `"d/dt * a = 5. + 2."` from `a = 0` with `dt = 0.1` yields
`a = 0.7`. -/
theorem differential_step_euler :
    (∀ target rhsVal dt : ℚ,
      evalStep .differential target rhsVal dt = target + rhsVal * dt) ∧
    runEquationStep "d/dt * a = 5. + 2.".data 0 (1 / 10) = some (7 / 10) := by
  refine ⟨fun _ _ _ => rfl, ?_⟩
  have hc : compileEquation "d/dt * a = 5. + 2.".data =
      some ⟨['a'], .differential, " 5. + 2.".data⟩ := by decide
  have he : evalExpr " 5. + 2.".data = some 7 := by
    have ht : tokenizeF (" 5. + 2.".data.length + 1) " 5. + 2.".data =
        some [Tok.num (ratOfDigits ['5'] []), Tok.plus,
          Tok.num (ratOfDigits ['2'] [])] := rfl
    have e5 : digitsToNat ['5'] = 5 := rfl
    have e2 : digitsToNat ['2'] = 2 := rfl
    have e0 : digitsToNat [] = 0 := rfl
    simp only [evalExpr, ht]
    simp only [evalChain, Option.some.injEq]
    norm_num [ratOfDigits, e5, e2, e0]
  rw [runEquationStep, hc, Option.some_bind]
  simp only [he, Option.map_some', evalStep]
  norm_num

/-- Claim C6: a differential-mode evaluation step with `dt = 0` leaves
the target variable unchanged — both for the update rule itself and for
any equation text that compiles to differential mode and whose right-hand
side evaluates. -/
theorem differential_step_dt_zero :
    (∀ target rhsVal : ℚ, evalStep .differential target rhsVal 0 = target) ∧
    (∀ (text : Chars) (v : ℚ) (eq : Equation) (r : ℚ),
      compileEquation text = some eq → eq.mode = .differential →
      evalExpr eq.rhsText = some r → runEquationStep text v 0 = some v) := by
  constructor
  · intro target rhsVal
    simp [evalStep]
  · intro text v eq r h1 h2 h3
    rw [runEquationStep, h1, Option.some_bind, h3, Option.map_some', h2]
    simp [evalStep]

/-- Claim C7: an indexing slice argument containing more than 2 colons is
rejected with a `SyntaxError`-class slicing-arity failure rather than
producing a value; in particular `0:5:2:1` is rejected. -/
theorem slice_arity_syntax_error :
    (∀ s : Chars, 2 < s.countP (fun c => c == ':') →
      parseSliceArg s = .error .syntaxError) ∧
    parseSliceArg "0:5:2:1".data = .error .syntaxError := by
  constructor
  · intro s h
    have hl := splitOnColon_length s
    rw [parseSliceArg]
    rcases hp : splitOnColon s with _ | ⟨a, _ | ⟨b, _ | ⟨c, _ | ⟨d, t⟩⟩⟩⟩ <;>
      rw [hp] at hl <;> simp only [List.length_cons, List.length_nil] at hl <;>
      first
        | rfl
        | omega
  · decide

/-- Witness for C7 at the concrete slice text `0:5:2:1`. -/
theorem slice_arity_syntax_error_witness :
    parseSliceArg "0:5:2:1".data = .error .syntaxError :=
  slice_arity_syntax_error.1 "0:5:2:1".data (by decide)

set_option maxRecDepth 100000 in
/-- Counterexample to claim C4 at the concrete 200-character input
`exC4`: `FortranGen.add_code_line` completes, but the generated segments
are `[30 chars, "\n", 62 chars]` — the continuation segment exceeds 60
characters — and their concatenation (linebreaks dropped, continuation
markers stripped) is only the first 85 characters of the input: the
remaining 115 characters are silently discarded. -/
theorem add_code_line_claim_cex :
    (add_code_line ⟨[], 0⟩ exC4).map
      (fun g => (g.code.all (fun seg => seg.length ≤ 60),
        decide (segText g.code = exC4))) = some (false, false) := by
  decide

/-- Claim C4 as amended: on every call of `FortranGen.add_code_line` that
completes, a line of at most 60 characters (after indentation prefixing)
is appended unchanged as a single segment; for a longer line, the
already-present segments are untouched and every appended segment after
the first is either a linebreak or begins with the Fortran continuation
convention — five spaces followed by `& `.  (The original claim's 60-
character bound on every segment and its round-trip guarantee do not
hold; see the counterexample.) -/
theorem add_code_line_amended :
    ∀ (g : FGen) (s : Chars) (g' : FGen),
      add_code_line g s = some g' →
      ((effLine g s).length ≤ 60 → g'.code = g.code ++ [effLine g s]) ∧
      g'.code.take g.code.length = g.code ∧
      (∀ seg ∈ g'.code.drop (g.code.length + 1),
        seg = newlineSeg ∨ contMarker.isPrefixOf seg = true) := by
  intro g s g' h
  rw [add_code_line] at h
  by_cases hlen : 60 < (effLine g s).length
  · rw [if_pos hlen] at h
    cases hf : find_first_op (effLine g s) 0 60 with
    | none => rw [hf] at h; exact absurd h (by simp)
    | some idx =>
      rw [hf] at h
      obtain ⟨ext, hcode, hprop⟩ := wrapLoop_ext 61 (effLine g s) idx _ g' h
      simp only at hcode
      refine ⟨fun hle => absurd hle (by omega), ?_, ?_⟩
      · rw [hcode, List.append_assoc]
        exact take_append_self _ _
      · intro seg hseg
        rw [hcode, List.append_assoc, List.singleton_append,
          drop_append_succ] at hseg
        exact hprop seg hseg
  · rw [if_neg hlen] at h
    obtain rfl : ({ g with code := g.code ++ [effLine g s] } : FGen) = g' := by
      simpa using h
    refine ⟨fun _ => rfl, take_append_self _ _, ?_⟩
    intro seg hseg
    rw [show (g.code ++ [effLine g s] : List Chars) =
      g.code ++ effLine g s :: [] from rfl, drop_append_succ] at hseg
    simp at hseg

/-- Witness for the amended C4 at the 5-character line `x = 1` appended
to an empty generator. -/
theorem add_code_line_amended_witness :
    ((effLine ⟨[], 0⟩ "x = 1".data).length ≤ 60 →
      (FGen.mk ["x = 1".data] 0).code =
        (FGen.mk [] 0).code ++ [effLine ⟨[], 0⟩ "x = 1".data]) ∧
    (FGen.mk ["x = 1".data] 0).code.take (FGen.mk [] 0).code.length =
      (FGen.mk [] 0).code ∧
    (∀ seg ∈ (FGen.mk ["x = 1".data] 0).code.drop
        ((FGen.mk [] 0).code.length + 1),
      seg = newlineSeg ∨ contMarker.isPrefixOf seg = true) :=
  add_code_line_amended ⟨[], 0⟩ "x = 1".data ⟨["x = 1".data], 0⟩ (by decide)

end PyRates
